import Mathlib

/-!
Verification of the query minifier in src/parser/query/minify.rs.

The file src/parser/query/minify.rs is the authority for the two minifier
pipelines (minify_query and minify_document).  The AST module, the tokenizer
and the grammar are collaborators of that file that are not part of the
given sources, so the data model below is modelled from section 3 of the
specification and the tokenizer boundary from sections 4.2 and 6.
-/

namespace GraphQL

/-- Modelled from the spec: token classification, section 4.1.  Every lexical
token is either a Punctuator or one of the word-like kinds (names and
keywords, integers, floats, string literals; block strings are the
triple-quoted string form). -/
inductive Kind where
  | punctuator
  | name
  | intValue
  | floatValue
  | stringValue
  | blockString
  deriving DecidableEq, Repr

/-- Modelled from the spec: a token is a classification kind together with
the exact source slice of the token, section 3. -/
structure Token where
  kind : Kind
  value : String
  deriving DecidableEq, Repr

/-- Modelled from the spec: the tokenizer boundary, section 6.  A pull-based
stream yields its classified tokens in order and then either a terminal
end-of-input signal (`terminal = none`) or a lexical error carrying a
human-readable description (`terminal = some message`). -/
structure TokenStream where
  tokens : List Token
  terminal : Option String
  deriving DecidableEq, Repr

/-- Modelled from the spec: the Type data model, section 3 — Named, List,
NonNull, right-recursive. -/
inductive GType where
  | namedType (name : String)
  | listType (inner : GType)
  | nonNullType (inner : GType)

/-- Modelled from the spec: the Value data model, section 3.  The object
variant is an ordered list of name/value pairs; the float variant carries
the canonical decimal textual form produced by the numeric-to-text
conversion of section 4.4. -/
inductive Value where
  | var (name : String)
  | int (n : Int)
  | float (text : String)
  | string (s : String)
  | boolean (b : Bool)
  | null
  | enum (name : String)
  | list (items : List Value)
  | object (fields : List (String × Value))

/-- Modelled from the spec: a directive is a name with an ordered argument
list, section 3. -/
structure Directive where
  name : String
  arguments : List (String × Value)

/-- Modelled from the spec: the type condition of a fragment, written
`on Name`. -/
inductive TypeCondition where
  | on (name : String)

/-- Modelled from the spec: a variable definition is a name, a declared type
and an optional default value, section 3. -/
structure VariableDefinition where
  name : String
  var_type : GType
  default_value : Option Value

/-- Modelled from the spec: a selection, section 3.  A selection set is the
ordered list of its selections (its items). -/
inductive Selection where
  | field (fieldAlias : Option String) (name : String)
      (arguments : List (String × Value)) (directives : List Directive)
      (selection_set : List Selection)
  | fragmentSpread (fragment_name : String) (directives : List Directive)
  | inlineFragment (type_condition : Option TypeCondition)
      (directives : List Directive) (selection_set : List Selection)

/-- Modelled from the spec: the common shape of a typed operation —
optional name, variable definitions, directives and a selection set.  The
query, mutation and subscription variants share this shape. -/
structure OpBody where
  name : Option String
  variable_definitions : List VariableDefinition
  directives : List Directive
  selection_set : List Selection

/-- Modelled from the spec: an operation definition is either a bare
selection set (the shorthand form) or a typed query, mutation or
subscription operation. -/
inductive OperationDefinition where
  | selectionSet (set : List Selection)
  | query (q : OpBody)
  | mutation (m : OpBody)
  | subscription (s : OpBody)

/-- Modelled from the spec: a definition is an operation or a fragment
definition, section 3. -/
inductive Definition where
  | operation (op : OperationDefinition)
  | fragment (name : String) (type_condition : TypeCondition)
      (directives : List Directive) (selection_set : List Selection)

/-- Modelled from the spec: a document is an ordered sequence of
definitions. -/
structure Document where
  definitions : List Definition

/-- Error minifying query: struct MinifyError(String), minify.rs line 9. -/
structure MinifyError where
  message : String
  deriving DecidableEq, Repr

/-- The thiserror display attribute on MinifyError, minify.rs line 8:
the error is displayed as `query minify error: <message>`. -/
def MinifyError.display (e : MinifyError) : String :=
  "query minify error: " ++ e.message

/-- The loop body of minify_query, minify.rs lines 16-32, over the list of
tokens the stream yields: the boolean accumulator is the source variable
prev_was_punctuator (which, as in the source, stores the is_non_punctuator
flag of the previous token), and the result is the list of pushed bits. -/
def minify_query_loop (prev_was_punctuator : Bool) : List Token → List String
  | [] => []
  | token :: rest =>
    let is_non_punctuator : Bool := decide (token.kind ≠ Kind.punctuator)
    (if prev_was_punctuator && is_non_punctuator then [" ", token.value]
     else [token.value]) ++ minify_query_loop is_non_punctuator rest

/-- bits.join(""), minify.rs line 34. -/
def join_all : List String → String
  | [] => ""
  | s :: rest => s ++ join_all rest

/-- minify_query, minify.rs lines 11-35: concatenate the bits pushed by the
loop when the stream ends with end_of_input, and wrap the stream error
description in MinifyError otherwise. -/
def minify_query (stream : TokenStream) : Except MinifyError String :=
  match stream.terminal with
  | some e => Except.error (MinifyError.mk e)
  | none => Except.ok (join_all (minify_query_loop false stream.tokens))

/-- struct Minifier, minify.rs lines 44-47: an output buffer and the single
boolean last_was_non_punctuator. -/
structure Minifier where
  buf : String
  last_was_non_punctuator : Bool
  deriving DecidableEq, Repr

/-- Minifier::new, minify.rs lines 50-55 (the capacity hint of the buffer
has no observable effect and is dropped). -/
def Minifier.new : Minifier :=
  { buf := "", last_was_non_punctuator := false }

/-- Minifier::write_non_punctuator, minify.rs lines 57-63: push a space if
the last fragment was a non-punctuator, push s, mark the state
non-punctuator. -/
def Minifier.write_non_punctuator (m : Minifier) (s : String) : Minifier :=
  { buf := (if m.last_was_non_punctuator then m.buf ++ " " else m.buf) ++ s,
    last_was_non_punctuator := true }

/-- Minifier::write_punctuator, minify.rs lines 65-68: push s verbatim and
mark the state punctuator. -/
def Minifier.write_punctuator (m : Minifier) (s : String) : Minifier :=
  { buf := m.buf ++ s, last_was_non_punctuator := false }

/-- char::is_control of the Rust standard library: the Unicode Cc category,
code points 0x00-0x1F and 0x7F-0x9F. -/
def is_control (c : Char) : Bool :=
  c.toNat < 0x20 || (0x7F ≤ c.toNat && c.toNat ≤ 0x9F)

/-- One lowercase hexadecimal digit, as produced by the Rust format
specifier x. -/
def hex_digit (k : Nat) : Char :=
  if k = 0 then '0' else if k = 1 then '1' else if k = 2 then '2'
  else if k = 3 then '3' else if k = 4 then '4' else if k = 5 then '5'
  else if k = 6 then '6' else if k = 7 then '7' else if k = 8 then '8'
  else if k = 9 then '9' else if k = 10 then 'a' else if k = 11 then 'b'
  else if k = 12 then 'c' else if k = 13 then 'd' else if k = 14 then 'e'
  else 'f'

/-- The Rust format specifier 04x on values below 0x10000: four lowercase
hexadecimal digits, zero padded. -/
def to_hex4 (n : Nat) : String :=
  String.mk [hex_digit (n / 4096 % 16), hex_digit (n / 256 % 16),
             hex_digit (n / 16 % 16), hex_digit (n % 16)]

/-- The per-character escape of the string loop in Minifier::write_value,
minify.rs lines 239-252: the seven named escapes, a backslash-u escape with
four lowercase hex digits for any other control character, and every other
character passed through unchanged. -/
def escape_char (c : Char) : String :=
  if c = '\x08' then "\\b"
  else if c = '\x0c' then "\\f"
  else if c = '\r' then "\\r"
  else if c = '\n' then "\\n"
  else if c = '\t' then "\\t"
  else if c = '\"' then "\\\""
  else if c = '\\' then "\\\\"
  else if is_control c then "\\u" ++ to_hex4 c.toNat
  else String.singleton c

/-- The whole character loop of the String arm, minify.rs lines 238-253. -/
def escape_chars : List Char → String
  | [] => ""
  | c :: cs => escape_char c ++ escape_chars cs

/-- The escaped body the String arm pushes between the two quotes for the
decoded string value s. -/
def escape_string (s : String) : String :=
  escape_chars s.data

mutual

/-- Minifier::write_value, minify.rs lines 225-277. -/
def Minifier.write_value (m : Minifier) : Value → Minifier
  | Value.var name => (m.write_punctuator "$").write_non_punctuator name
  | Value.int n => m.write_non_punctuator (toString n)
  | Value.float text => m.write_non_punctuator text
  | Value.string s =>
    { buf := (if m.last_was_non_punctuator then m.buf ++ " " else m.buf)
             ++ "\"" ++ escape_string s ++ "\"",
      last_was_non_punctuator := true }
  | Value.boolean b => m.write_non_punctuator (if b then "true" else "false")
  | Value.null => m.write_non_punctuator "null"
  | Value.enum name => m.write_non_punctuator name
  | Value.list items =>
    ((m.write_punctuator "[").write_value_list items).write_punctuator "]"
  | Value.object fields =>
    ((m.write_punctuator "\x7b").write_object_fields fields).write_punctuator "\x7d"

/-- The item loop of the List arm, minify.rs lines 262-264. -/
def Minifier.write_value_list (m : Minifier) : List Value → Minifier
  | [] => m
  | v :: rest => (m.write_value v).write_value_list rest

/-- The field loop of the Object arm, minify.rs lines 269-273. -/
def Minifier.write_object_fields (m : Minifier) : List (String × Value) → Minifier
  | [] => m
  | (name, val) :: rest =>
    (((m.write_non_punctuator name).write_punctuator ":").write_value val).write_object_fields rest

end

/-- Minifier::write_type, minify.rs lines 189-202. -/
def Minifier.write_type (m : Minifier) : GType → Minifier
  | GType.namedType name => m.write_non_punctuator name
  | GType.listType inner =>
    ((m.write_punctuator "[").write_type inner).write_punctuator "]"
  | GType.nonNullType inner => (m.write_type inner).write_punctuator "!"

/-- The pair loop of Minifier::write_arguments, minify.rs lines 217-221. -/
def Minifier.write_argument_pairs (m : Minifier) : List (String × Value) → Minifier
  | [] => m
  | (name, val) :: rest =>
    (((m.write_non_punctuator name).write_punctuator ":").write_value val).write_argument_pairs rest

/-- Minifier::write_arguments, minify.rs lines 212-223: nothing for an empty
list, otherwise the pairs wrapped in parentheses. -/
def Minifier.write_arguments (m : Minifier) (args : List (String × Value)) : Minifier :=
  if args.isEmpty then m
  else ((m.write_punctuator "(").write_argument_pairs args).write_punctuator ")"

/-- Minifier::write_directives, minify.rs lines 204-210. -/
def Minifier.write_directives (m : Minifier) : List Directive → Minifier
  | [] => m
  | dir :: rest =>
    (((m.write_punctuator "@").write_non_punctuator dir.name).write_arguments
      dir.arguments).write_directives rest

/-- Minifier::write_type_condition, minify.rs lines 162-169. -/
def Minifier.write_type_condition (m : Minifier) : TypeCondition → Minifier
  | TypeCondition.on name => (m.write_non_punctuator "on").write_non_punctuator name

/-- The loop of Minifier::write_variable_definitions, minify.rs
lines 176-185. -/
def Minifier.write_variable_definition_list (m : Minifier) : List VariableDefinition → Minifier
  | [] => m
  | var :: rest =>
    let m1 := ((m.write_punctuator "$").write_non_punctuator var.name).write_punctuator ":"
    let m2 := m1.write_type var.var_type
    let m3 := match var.default_value with
      | some def_val => (m2.write_punctuator "=").write_value def_val
      | none => m2
    m3.write_variable_definition_list rest

/-- Minifier::write_variable_definitions, minify.rs lines 171-187: nothing
for an empty list, otherwise the definitions wrapped in parentheses. -/
def Minifier.write_variable_definitions (m : Minifier) (vars : List VariableDefinition) : Minifier :=
  if vars.isEmpty then m
  else ((m.write_punctuator "(").write_variable_definition_list vars).write_punctuator ")"

mutual

/-- Minifier::write_selection_set, minify.rs lines 124-130, on the items of
the set. -/
def Minifier.write_selection_set (m : Minifier) (items : List Selection) : Minifier :=
  ((m.write_punctuator "\x7b").write_selections items).write_punctuator "\x7d"

/-- The item loop of Minifier::write_selection_set, minify.rs
lines 126-128. -/
def Minifier.write_selections (m : Minifier) : List Selection → Minifier
  | [] => m
  | item :: rest => (m.write_selection item).write_selections rest

/-- Minifier::write_selection, minify.rs lines 132-160. -/
def Minifier.write_selection (m : Minifier) : Selection → Minifier
  | Selection.field fieldAlias name arguments directives selection_set =>
    let m1 := match fieldAlias with
      | some a => (m.write_non_punctuator a).write_punctuator ":"
      | none => m
    let m2 := ((m1.write_non_punctuator name).write_arguments arguments).write_directives directives
    if selection_set.isEmpty then m2 else m2.write_selection_set selection_set
  | Selection.fragmentSpread fragment_name directives =>
    ((m.write_punctuator "...").write_non_punctuator fragment_name).write_directives directives
  | Selection.inlineFragment type_condition directives selection_set =>
    let m1 := match type_condition with
      | some tc => (m.write_punctuator "...").write_type_condition tc
      | none => m.write_punctuator "..."
    (m1.write_directives directives).write_selection_set selection_set

end

/-- The shared body of the Query, Mutation and Subscription arms of
Minifier::write_operation, minify.rs lines 86-112: keyword, optional name,
variable definitions, directives, selection set. -/
def Minifier.write_op_body (m : Minifier) (keyword : String) (b : OpBody) : Minifier :=
  let m1 := m.write_non_punctuator keyword
  let m2 := match b.name with
    | some name => m1.write_non_punctuator name
    | none => m1
  ((m2.write_variable_definitions b.variable_definitions).write_directives
    b.directives).write_selection_set b.selection_set

/-- Minifier::write_operation, minify.rs lines 83-114. -/
def Minifier.write_operation (m : Minifier) : OperationDefinition → Minifier
  | OperationDefinition.selectionSet set => m.write_selection_set set
  | OperationDefinition.query q => m.write_op_body "query" q
  | OperationDefinition.mutation mu => m.write_op_body "mutation" mu
  | OperationDefinition.subscription s => m.write_op_body "subscription" s

/-- Minifier::write_fragment, minify.rs lines 116-122. -/
def Minifier.write_fragment (m : Minifier) (name : String) (tc : TypeCondition)
    (directives : List Directive) (selection_set : List Selection) : Minifier :=
  ((((m.write_non_punctuator "fragment").write_non_punctuator
    name).write_type_condition tc).write_directives directives).write_selection_set selection_set

/-- Minifier::write_definition, minify.rs lines 76-81. -/
def Minifier.write_definition (m : Minifier) : Definition → Minifier
  | Definition.operation op => m.write_operation op
  | Definition.fragment name tc directives selection_set =>
    m.write_fragment name tc directives selection_set

/-- The definition loop of Minifier::write_document, minify.rs
lines 70-74. -/
def Minifier.write_definitions (m : Minifier) : List Definition → Minifier
  | [] => m
  | def1 :: rest => (m.write_definition def1).write_definitions rest

/-- Minifier::write_document, minify.rs lines 70-74. -/
def Minifier.write_document (m : Minifier) (doc : Document) : Minifier :=
  m.write_definitions doc.definitions

/-- minify_document, minify.rs lines 38-42: run the writer on a fresh
minifier and return its buffer. -/
def minify_document (doc : Document) : String :=
  (Minifier.new.write_document doc).buf

/-- An emitted fragment: its word-like flag and its text, section 4.1 of
the spec. -/
structure Frag where
  isWord : Bool
  text : String
  deriving DecidableEq, Repr

/-- Emit one fragment through the two primitives of the minifier. -/
def emit (m : Minifier) (f : Frag) : Minifier :=
  if f.isWord then m.write_non_punctuator f.text else m.write_punctuator f.text

/-- Emit a list of fragments in order. -/
def emit_all (m : Minifier) : List Frag → Minifier
  | [] => m
  | f :: fs => emit_all (emit m f) fs

/-- Render a fragment list given the word-like flag of the previously
emitted fragment: one space goes between two word-like neighbours and
nothing goes anywhere else. -/
def render_from (last : Bool) : List Frag → String
  | [] => ""
  | f :: fs => (if last && f.isWord then " " else "") ++ f.text ++ render_from f.isWord fs

/-- The word-like flag after emitting a fragment list, starting from b. -/
def last_flag (fs : List Frag) (b : Bool) : Bool :=
  match fs.getLast? with
  | some f => f.isWord
  | none => b

/-- The fragment a token contributes in the token-stream pipeline. -/
def token_frag (t : Token) : Frag :=
  ⟨decide (t.kind ≠ Kind.punctuator), t.value⟩

mutual

/-- The fragments of a Value, mirroring Minifier::write_value. -/
def value_frags : Value → List Frag
  | Value.var name => [⟨false, "$"⟩, ⟨true, name⟩]
  | Value.int n => [⟨true, toString n⟩]
  | Value.float text => [⟨true, text⟩]
  | Value.string s => [⟨true, "\"" ++ escape_string s ++ "\""⟩]
  | Value.boolean b => [⟨true, if b then "true" else "false"⟩]
  | Value.null => [⟨true, "null"⟩]
  | Value.enum name => [⟨true, name⟩]
  | Value.list items => ⟨false, "["⟩ :: value_list_frags items ++ [⟨false, "]"⟩]
  | Value.object fields => ⟨false, "\x7b"⟩ :: object_frags fields ++ [⟨false, "\x7d"⟩]

/-- The fragments of a list of values. -/
def value_list_frags : List Value → List Frag
  | [] => []
  | v :: rest => value_frags v ++ value_list_frags rest

/-- The fragments of the fields of an object value. -/
def object_frags : List (String × Value) → List Frag
  | [] => []
  | (name, val) :: rest =>
    ⟨true, name⟩ :: ⟨false, ":"⟩ :: (value_frags val ++ object_frags rest)

end

/-- The fragments of a type, mirroring Minifier::write_type. -/
def type_frags : GType → List Frag
  | GType.namedType name => [⟨true, name⟩]
  | GType.listType inner => ⟨false, "["⟩ :: type_frags inner ++ [⟨false, "]"⟩]
  | GType.nonNullType inner => type_frags inner ++ [⟨false, "!"⟩]

/-- The fragments of the argument pairs. -/
def argument_pairs_frags : List (String × Value) → List Frag
  | [] => []
  | (name, val) :: rest =>
    ⟨true, name⟩ :: ⟨false, ":"⟩ :: (value_frags val ++ argument_pairs_frags rest)

/-- The fragments of an argument list, mirroring Minifier::write_arguments. -/
def arguments_frags (args : List (String × Value)) : List Frag :=
  if args.isEmpty then []
  else ⟨false, "("⟩ :: argument_pairs_frags args ++ [⟨false, ")"⟩]

/-- The fragments of a directive list, mirroring Minifier::write_directives. -/
def directives_frags : List Directive → List Frag
  | [] => []
  | dir :: rest =>
    ⟨false, "@"⟩ :: ⟨true, dir.name⟩ :: (arguments_frags dir.arguments ++ directives_frags rest)

/-- The fragments of a type condition. -/
def type_condition_frags : TypeCondition → List Frag
  | TypeCondition.on name => [⟨true, "on"⟩, ⟨true, name⟩]

/-- The fragments of the variable definition list. -/
def variable_definition_list_frags : List VariableDefinition → List Frag
  | [] => []
  | var :: rest =>
    ⟨false, "$"⟩ :: ⟨true, var.name⟩ :: ⟨false, ":"⟩ ::
      (type_frags var.var_type ++
       (match var.default_value with
        | some def_val => ⟨false, "="⟩ :: value_frags def_val
        | none => []) ++
       variable_definition_list_frags rest)

/-- The fragments of the variable definitions, mirroring
Minifier::write_variable_definitions. -/
def variable_definitions_frags (vars : List VariableDefinition) : List Frag :=
  if vars.isEmpty then []
  else ⟨false, "("⟩ :: variable_definition_list_frags vars ++ [⟨false, ")"⟩]

mutual

/-- The fragments of a selection set, mirroring
Minifier::write_selection_set. -/
def selection_set_frags (items : List Selection) : List Frag :=
  ⟨false, "\x7b"⟩ :: selections_frags items ++ [⟨false, "\x7d"⟩]

/-- The fragments of a list of selections. -/
def selections_frags : List Selection → List Frag
  | [] => []
  | item :: rest => selection_frags item ++ selections_frags rest

/-- The fragments of one selection, mirroring Minifier::write_selection. -/
def selection_frags : Selection → List Frag
  | Selection.field fieldAlias name arguments directives selection_set =>
    (match fieldAlias with
     | some a => [(⟨true, a⟩ : Frag), ⟨false, ":"⟩]
     | none => []) ++
    (⟨true, name⟩ :: (arguments_frags arguments ++ directives_frags directives)) ++
    (if selection_set.isEmpty then [] else selection_set_frags selection_set)
  | Selection.fragmentSpread fragment_name directives =>
    ⟨false, "..."⟩ :: ⟨true, fragment_name⟩ :: directives_frags directives
  | Selection.inlineFragment type_condition directives selection_set =>
    ⟨false, "..."⟩ ::
    ((match type_condition with
      | some tc => type_condition_frags tc
      | none => []) ++
     (directives_frags directives ++ selection_set_frags selection_set))

end

/-- The fragments of the shared operation body. -/
def op_body_frags (keyword : String) (b : OpBody) : List Frag :=
  ⟨true, keyword⟩ ::
    ((match b.name with
      | some name => [(⟨true, name⟩ : Frag)]
      | none => []) ++
     (variable_definitions_frags b.variable_definitions ++
      (directives_frags b.directives ++ selection_set_frags b.selection_set)))

/-- The fragments of an operation definition. -/
def operation_frags : OperationDefinition → List Frag
  | OperationDefinition.selectionSet set => selection_set_frags set
  | OperationDefinition.query q => op_body_frags "query" q
  | OperationDefinition.mutation mu => op_body_frags "mutation" mu
  | OperationDefinition.subscription s => op_body_frags "subscription" s

/-- The fragments of a fragment definition. -/
def fragment_frags (name : String) (tc : TypeCondition) (directives : List Directive)
    (selection_set : List Selection) : List Frag :=
  ⟨true, "fragment"⟩ :: ⟨true, name⟩ ::
    (type_condition_frags tc ++
     (directives_frags directives ++ selection_set_frags selection_set))

/-- The fragments of a definition. -/
def definition_frags : Definition → List Frag
  | Definition.operation op => operation_frags op
  | Definition.fragment name tc directives selection_set =>
    fragment_frags name tc directives selection_set

/-- The fragments of a definition list. -/
def definitions_frags : List Definition → List Frag
  | [] => []
  | def1 :: rest => definition_frags def1 ++ definitions_frags rest

/-- The fragments of a whole document. -/
def document_frags (doc : Document) : List Frag :=
  definitions_frags doc.definitions

/-- The output the specification describes for the token-stream pipeline,
section 4.2, written from its words: the concatenation of the exact token
texts, with a single space before a token exactly when the previous token
and the current token are both non-punctuator tokens, and no space before
the first token. -/
def spaced_concat : Option Token → List Token → String
  | prev, [] =>
    match prev with
    | _ => ""
  | prev, t :: ts =>
    (match prev with
     | some p =>
       if p.kind ≠ Kind.punctuator ∧ t.kind ≠ Kind.punctuator then " " else ""
     | none => "") ++ t.value ++ spaced_concat (some t) ts

/-- The numeric value of one lowercase hexadecimal digit. -/
def hex_val (c : Char) : Option Nat :=
  if c = '0' then some 0 else if c = '1' then some 1 else if c = '2' then some 2
  else if c = '3' then some 3 else if c = '4' then some 4 else if c = '5' then some 5
  else if c = '6' then some 6 else if c = '7' then some 7 else if c = '8' then some 8
  else if c = '9' then some 9 else if c = 'a' then some 10 else if c = 'b' then some 11
  else if c = 'c' then some 12 else if c = 'd' then some 13 else if c = 'e' then some 14
  else if c = 'f' then some 15 else none

/-- Modelled from the spec: decoding the body of a standard double-quoted
string literal (sections 4.4 and 8, string re-escaping round trip) — the
seven named escapes, a backslash-u escape of four hexadecimal digits taken
as a code point, every other character taken verbatim; a bare quote cannot
occur inside the body and a dangling backslash escape is an error. -/
def unescape_chars : List Char → Option (List Char)
  | [] => some []
  | c :: cs =>
    if c = '\\' then
      match cs with
      | 'b' :: rest => (unescape_chars rest).map (fun l => '\x08' :: l)
      | 'f' :: rest => (unescape_chars rest).map (fun l => '\x0c' :: l)
      | 'r' :: rest => (unescape_chars rest).map (fun l => '\r' :: l)
      | 'n' :: rest => (unescape_chars rest).map (fun l => '\n' :: l)
      | 't' :: rest => (unescape_chars rest).map (fun l => '\t' :: l)
      | '\"' :: rest => (unescape_chars rest).map (fun l => '\"' :: l)
      | '\\' :: rest => (unescape_chars rest).map (fun l => '\\' :: l)
      | 'u' :: h1 :: h2 :: h3 :: h4 :: rest =>
        match hex_val h1, hex_val h2, hex_val h3, hex_val h4 with
        | some a, some b, some c2, some d =>
          (unescape_chars rest).map
            (fun l => Char.ofNat (a * 4096 + b * 256 + c2 * 16 + d) :: l)
        | _, _, _, _ => none
      | _ => none
    else if c = '\"' then none
    else (unescape_chars cs).map (fun l => c :: l)

/-- Decode the body of an emitted string literal back to a string value. -/
def unescape_string (s : String) : Option String :=
  (unescape_chars s.data).map (fun l => String.mk l)

/-- fmt Write for String of the Rust standard library, used by the write
macro call at minify.rs line 249: appending formatted text to a String
buffer; its fmt Result is modelled as Option, with none standing for a
formatting error.  The standard implementation never errors. -/
def fmt_write (buf s : String) : Option String :=
  some (buf ++ s)

/-- The character loop of the String arm with the formatting step of the
backslash-u escape kept fallible (the unwrap at minify.rs line 249 is
modelled as propagating the error instead of panicking). -/
def escape_chars_opt (buf : String) : List Char → Option String
  | [] => some buf
  | c :: cs =>
    if c = '\x08' then escape_chars_opt (buf ++ "\\b") cs
    else if c = '\x0c' then escape_chars_opt (buf ++ "\\f") cs
    else if c = '\r' then escape_chars_opt (buf ++ "\\r") cs
    else if c = '\n' then escape_chars_opt (buf ++ "\\n") cs
    else if c = '\t' then escape_chars_opt (buf ++ "\\t") cs
    else if c = '\"' then escape_chars_opt (buf ++ "\\\"") cs
    else if c = '\\' then escape_chars_opt (buf ++ "\\\\") cs
    else if is_control c then
      (fmt_write buf ("\\u" ++ to_hex4 c.toNat)).bind (fun b => escape_chars_opt b cs)
    else escape_chars_opt (buf ++ String.singleton c) cs

mutual

/-- Minifier::write_value with the fallible formatting step kept
fallible. -/
def Minifier.write_value_opt (m : Minifier) : Value → Option Minifier
  | Value.var name => some ((m.write_punctuator "$").write_non_punctuator name)
  | Value.int n => some (m.write_non_punctuator (toString n))
  | Value.float text => some (m.write_non_punctuator text)
  | Value.string s =>
    (escape_chars_opt ((if m.last_was_non_punctuator then m.buf ++ " " else m.buf) ++ "\"")
        s.data).map
      (fun b => { buf := b ++ "\"", last_was_non_punctuator := true })
  | Value.boolean b => some (m.write_non_punctuator (if b then "true" else "false"))
  | Value.null => some (m.write_non_punctuator "null")
  | Value.enum name => some (m.write_non_punctuator name)
  | Value.list items =>
    ((m.write_punctuator "[").write_value_list_opt items).map
      (fun m2 => m2.write_punctuator "]")
  | Value.object fields =>
    ((m.write_punctuator "\x7b").write_object_fields_opt fields).map
      (fun m2 => m2.write_punctuator "\x7d")

/-- The item loop of the List arm, fallible variant. -/
def Minifier.write_value_list_opt (m : Minifier) : List Value → Option Minifier
  | [] => some m
  | v :: rest => (m.write_value_opt v).bind (fun m2 => m2.write_value_list_opt rest)

/-- The field loop of the Object arm, fallible variant. -/
def Minifier.write_object_fields_opt (m : Minifier) : List (String × Value) → Option Minifier
  | [] => some m
  | (name, val) :: rest =>
    (((m.write_non_punctuator name).write_punctuator ":").write_value_opt val).bind
      (fun m2 => m2.write_object_fields_opt rest)

end

/-- The pair loop of Minifier::write_arguments, fallible variant. -/
def Minifier.write_argument_pairs_opt (m : Minifier) : List (String × Value) → Option Minifier
  | [] => some m
  | (name, val) :: rest =>
    (((m.write_non_punctuator name).write_punctuator ":").write_value_opt val).bind
      (fun m2 => m2.write_argument_pairs_opt rest)

/-- Minifier::write_arguments, fallible variant. -/
def Minifier.write_arguments_opt (m : Minifier) (args : List (String × Value)) :
    Option Minifier :=
  if args.isEmpty then some m
  else ((m.write_punctuator "(").write_argument_pairs_opt args).map
    (fun m2 => m2.write_punctuator ")")

/-- Minifier::write_directives, fallible variant. -/
def Minifier.write_directives_opt (m : Minifier) : List Directive → Option Minifier
  | [] => some m
  | dir :: rest =>
    (((m.write_punctuator "@").write_non_punctuator dir.name).write_arguments_opt
        dir.arguments).bind
      (fun m2 => m2.write_directives_opt rest)

/-- The loop of Minifier::write_variable_definitions, fallible variant. -/
def Minifier.write_variable_definition_list_opt (m : Minifier) :
    List VariableDefinition → Option Minifier
  | [] => some m
  | var :: rest =>
    let m1 := ((m.write_punctuator "$").write_non_punctuator var.name).write_punctuator ":"
    let m2 := m1.write_type var.var_type
    (match var.default_value with
     | some def_val => (m2.write_punctuator "=").write_value_opt def_val
     | none => some m2).bind
      (fun m3 => m3.write_variable_definition_list_opt rest)

/-- Minifier::write_variable_definitions, fallible variant. -/
def Minifier.write_variable_definitions_opt (m : Minifier)
    (vars : List VariableDefinition) : Option Minifier :=
  if vars.isEmpty then some m
  else ((m.write_punctuator "(").write_variable_definition_list_opt vars).map
    (fun m2 => m2.write_punctuator ")")

mutual

/-- Minifier::write_selection_set, fallible variant. -/
def Minifier.write_selection_set_opt (m : Minifier) (items : List Selection) :
    Option Minifier :=
  ((m.write_punctuator "\x7b").write_selections_opt items).map
    (fun m2 => m2.write_punctuator "\x7d")

/-- The item loop of Minifier::write_selection_set, fallible variant. -/
def Minifier.write_selections_opt (m : Minifier) : List Selection → Option Minifier
  | [] => some m
  | item :: rest => (m.write_selection_opt item).bind (fun m2 => m2.write_selections_opt rest)

/-- Minifier::write_selection, fallible variant. -/
def Minifier.write_selection_opt (m : Minifier) : Selection → Option Minifier
  | Selection.field fieldAlias name arguments directives selection_set =>
    let m1 := match fieldAlias with
      | some a => (m.write_non_punctuator a).write_punctuator ":"
      | none => m
    ((m1.write_non_punctuator name).write_arguments_opt arguments).bind
      (fun m2 => (m2.write_directives_opt directives).bind
        (fun m3 =>
          if selection_set.isEmpty then some m3
          else m3.write_selection_set_opt selection_set))
  | Selection.fragmentSpread fragment_name directives =>
    ((m.write_punctuator "...").write_non_punctuator fragment_name).write_directives_opt
      directives
  | Selection.inlineFragment type_condition directives selection_set =>
    let m1 := match type_condition with
      | some tc => (m.write_punctuator "...").write_type_condition tc
      | none => m.write_punctuator "..."
    (m1.write_directives_opt directives).bind
      (fun m2 => m2.write_selection_set_opt selection_set)

end

/-- The shared operation body, fallible variant. -/
def Minifier.write_op_body_opt (m : Minifier) (keyword : String) (b : OpBody) :
    Option Minifier :=
  let m1 := m.write_non_punctuator keyword
  let m2 := match b.name with
    | some name => m1.write_non_punctuator name
    | none => m1
  (m2.write_variable_definitions_opt b.variable_definitions).bind
    (fun m3 => (m3.write_directives_opt b.directives).bind
      (fun m4 => m4.write_selection_set_opt b.selection_set))

/-- Minifier::write_operation, fallible variant. -/
def Minifier.write_operation_opt (m : Minifier) : OperationDefinition → Option Minifier
  | OperationDefinition.selectionSet set => m.write_selection_set_opt set
  | OperationDefinition.query q => m.write_op_body_opt "query" q
  | OperationDefinition.mutation mu => m.write_op_body_opt "mutation" mu
  | OperationDefinition.subscription s => m.write_op_body_opt "subscription" s

/-- Minifier::write_fragment, fallible variant. -/
def Minifier.write_fragment_opt (m : Minifier) (name : String) (tc : TypeCondition)
    (directives : List Directive) (selection_set : List Selection) : Option Minifier :=
  ((((m.write_non_punctuator "fragment").write_non_punctuator
      name).write_type_condition tc).write_directives_opt directives).bind
    (fun m2 => m2.write_selection_set_opt selection_set)

/-- Minifier::write_definition, fallible variant. -/
def Minifier.write_definition_opt (m : Minifier) : Definition → Option Minifier
  | Definition.operation op => m.write_operation_opt op
  | Definition.fragment name tc directives selection_set =>
    m.write_fragment_opt name tc directives selection_set

/-- The definition loop of Minifier::write_document, fallible variant. -/
def Minifier.write_definitions_opt (m : Minifier) : List Definition → Option Minifier
  | [] => some m
  | def1 :: rest => (m.write_definition_opt def1).bind (fun m2 => m2.write_definitions_opt rest)

/-- Minifier::write_document, fallible variant. -/
def Minifier.write_document_opt (m : Minifier) (doc : Document) : Option Minifier :=
  m.write_definitions_opt doc.definitions

/-- minify_document with the formatting step of the backslash-u escape kept
fallible: none would mean a panic of the unwrap at minify.rs line 249. -/
def minify_document_opt (doc : Document) : Option String :=
  (Minifier.new.write_document_opt doc).map (fun m => m.buf)

/-- Modelled from the spec: the token stream the tokenizer yields for the
source text consisting of the fourteen characters brace, a, open paren, b,
colon, a triple-quoted block string holding x, close paren, brace — each
token carries its exact source slice (sections 3 and 4.2) and the source
has no ignored characters, so the slices concatenate back to the source. -/
def block_string_tokens : List Token :=
  [⟨Kind.punctuator, "\x7b"⟩, ⟨Kind.name, "a"⟩, ⟨Kind.punctuator, "("⟩,
   ⟨Kind.name, "b"⟩, ⟨Kind.punctuator, ":"⟩,
   ⟨Kind.blockString, "\"\"\"x\"\"\""⟩,
   ⟨Kind.punctuator, ")"⟩, ⟨Kind.punctuator, "\x7d"⟩]

/-- Modelled from the spec: the parse of the same source — a shorthand
operation selecting field a with argument b; the glossary directs that a
block string is decoded to its logical string value, here x, before
reaching the tree minifier. -/
def block_string_document : Document :=
  ⟨[Definition.operation (OperationDefinition.selectionSet
    [Selection.field none "a" [("b", Value.string "x")] [] []])]⟩

/-- Modelled from the source test unexpected_token, minify.rs lines 307-323:
on the source containing a stray semicolon the tokenizer yields the tokens
before the semicolon and then the lexical error whose description names the
unexpected character. -/
def semicolon_stream : TokenStream :=
  ⟨[⟨Kind.name, "query"⟩, ⟨Kind.name, "foo"⟩, ⟨Kind.punctuator, "\x7b"⟩,
    ⟨Kind.name, "bar"⟩],
   some "Unexpected unexpected character ';'"⟩

/-- A small healthy token stream used as a concrete witness input: the
source query brace node brace brace, tokenized. -/
def witness_stream : TokenStream :=
  ⟨[⟨Kind.name, "query"⟩, ⟨Kind.name, "Foo"⟩, ⟨Kind.punctuator, "\x7b"⟩,
    ⟨Kind.name, "node"⟩, ⟨Kind.punctuator, "\x7d"⟩],
   none⟩

/-- Parse a string of exactly four hexadecimal digits. -/
def hex4_val (s : String) : Option Nat :=
  match s.data with
  | [h1, h2, h3, h4] =>
    match hex_val h1, hex_val h2, hex_val h3, hex_val h4 with
    | some a, some b, some c, some d => some (a * 4096 + b * 256 + c * 16 + d)
    | _, _, _, _ => none
  | _ => none

theorem emit_all_append (fs gs : List Frag) : ∀ m : Minifier,
    emit_all m (fs ++ gs) = emit_all (emit_all m fs) gs := by
  induction fs with
  | nil => intro m; rfl
  | cons f fs ih => intro m; simp only [List.cons_append, emit_all]; exact ih (emit m f)

theorem write_non_punctuator_eq (m : Minifier) (s : String) :
    m.write_non_punctuator s =
      ⟨m.buf ++ ((if m.last_was_non_punctuator then " " else "") ++ s), true⟩ := by
  unfold Minifier.write_non_punctuator
  cases h : m.last_was_non_punctuator <;>
    simp [h, String.append_assoc, String.empty_append]

theorem emit_spec (m : Minifier) (f : Frag) :
    emit m f =
      ⟨m.buf ++ ((if m.last_was_non_punctuator && f.isWord then " " else "") ++ f.text),
       f.isWord⟩ := by
  cases f with
  | mk w t =>
    cases w <;> cases h : m.last_was_non_punctuator <;>
      simp [emit, Minifier.write_non_punctuator, Minifier.write_punctuator, h,
        String.append_assoc, String.empty_append]

theorem last_flag_nil (b : Bool) : last_flag [] b = b := rfl

theorem last_flag_cons (f : Frag) (fs : List Frag) (b : Bool) :
    last_flag (f :: fs) b = last_flag fs f.isWord := by
  cases fs <;> simp [last_flag, List.getLast?]

theorem emit_all_spec (fs : List Frag) : ∀ m : Minifier,
    emit_all m fs =
      ⟨m.buf ++ render_from m.last_was_non_punctuator fs,
       last_flag fs m.last_was_non_punctuator⟩ := by
  induction fs with
  | nil =>
    intro m
    simp [emit_all, render_from, last_flag_nil, String.append_empty]
  | cons f fs ih =>
    intro m
    rw [emit_all, ih (emit m f), emit_spec, last_flag_cons]
    simp [render_from, String.append_assoc]

theorem render_from_append (fs gs : List Frag) : ∀ b : Bool,
    render_from b (fs ++ gs) = render_from b fs ++ render_from (last_flag fs b) gs := by
  induction fs with
  | nil => intro b; simp [render_from, last_flag_nil, String.empty_append]
  | cons f fs ih =>
    intro b
    simp only [List.cons_append, render_from, last_flag_cons, String.append_assoc]
    rw [show fs.append gs = fs ++ gs from rfl, ih f.isWord]

mutual

theorem write_value_emits : ∀ (v : Value) (m : Minifier),
    m.write_value v = emit_all m (value_frags v)
  | Value.var name, m => by
    simp [Minifier.write_value, value_frags, emit_all, emit]
  | Value.int n, m => by
    simp [Minifier.write_value, value_frags, emit_all, emit]
  | Value.float text, m => by
    simp [Minifier.write_value, value_frags, emit_all, emit]
  | Value.string s, m => by
    simp [Minifier.write_value, value_frags, emit_all, emit,
      Minifier.write_non_punctuator, String.append_assoc]
  | Value.boolean b, m => by
    simp [Minifier.write_value, value_frags, emit_all, emit]
  | Value.null, m => by
    simp [Minifier.write_value, value_frags, emit_all, emit]
  | Value.enum name, m => by
    simp [Minifier.write_value, value_frags, emit_all, emit]
  | Value.list items, m => by
    have ih := write_value_list_emits items (m.write_punctuator "[")
    simp only [Minifier.write_value, value_frags]
    rw [ih]
    simp [emit_all_append, emit_all, emit]
  | Value.object fields, m => by
    have ih := write_object_fields_emits fields (m.write_punctuator "\x7b")
    simp only [Minifier.write_value, value_frags]
    rw [ih]
    simp [emit_all_append, emit_all, emit]

theorem write_value_list_emits : ∀ (l : List Value) (m : Minifier),
    m.write_value_list l = emit_all m (value_list_frags l)
  | [], m => by simp [Minifier.write_value_list, value_list_frags, emit_all]
  | v :: rest, m => by
    have ih1 := write_value_emits v m
    have ih2 := write_value_list_emits rest (m.write_value v)
    simp only [Minifier.write_value_list, value_list_frags]
    rw [ih2, ih1, emit_all_append]

theorem write_object_fields_emits : ∀ (l : List (String × Value)) (m : Minifier),
    m.write_object_fields l = emit_all m (object_frags l)
  | [], m => by simp [Minifier.write_object_fields, object_frags, emit_all]
  | (name, val) :: rest, m => by
    have ih1 := write_value_emits val ((m.write_non_punctuator name).write_punctuator ":")
    have ih2 := write_object_fields_emits rest
      (((m.write_non_punctuator name).write_punctuator ":").write_value val)
    simp only [Minifier.write_object_fields, object_frags]
    rw [ih2, ih1]
    simp [emit_all_append, emit_all, emit]

end

theorem write_type_emits : ∀ (ty : GType) (m : Minifier),
    m.write_type ty = emit_all m (type_frags ty)
  | GType.namedType name, m => by
    simp [Minifier.write_type, type_frags, emit_all, emit]
  | GType.listType inner, m => by
    have ih := write_type_emits inner (m.write_punctuator "[")
    simp only [Minifier.write_type, type_frags]
    rw [ih]
    simp [emit_all_append, emit_all, emit]
  | GType.nonNullType inner, m => by
    have ih := write_type_emits inner m
    simp only [Minifier.write_type, type_frags]
    rw [ih, emit_all_append]
    simp [emit_all, emit]

theorem write_argument_pairs_emits : ∀ (l : List (String × Value)) (m : Minifier),
    m.write_argument_pairs l = emit_all m (argument_pairs_frags l)
  | [], m => by simp [Minifier.write_argument_pairs, argument_pairs_frags, emit_all]
  | (name, val) :: rest, m => by
    have ih1 := write_value_emits val ((m.write_non_punctuator name).write_punctuator ":")
    have ih2 := write_argument_pairs_emits rest
      (((m.write_non_punctuator name).write_punctuator ":").write_value val)
    simp only [Minifier.write_argument_pairs, argument_pairs_frags]
    rw [ih2, ih1]
    simp [emit_all_append, emit_all, emit]

theorem write_arguments_emits (args : List (String × Value)) (m : Minifier) :
    m.write_arguments args = emit_all m (arguments_frags args) := by
  unfold Minifier.write_arguments arguments_frags
  cases h : args.isEmpty
  · simp only [Bool.false_eq_true, if_false]
    rw [write_argument_pairs_emits args (m.write_punctuator "(")]
    simp [emit_all_append, emit_all, emit]
  · simp [emit_all]

theorem write_directives_emits : ∀ (l : List Directive) (m : Minifier),
    m.write_directives l = emit_all m (directives_frags l)
  | [], m => by simp [Minifier.write_directives, directives_frags, emit_all]
  | dir :: rest, m => by
    have ih := write_directives_emits rest
      (((m.write_punctuator "@").write_non_punctuator dir.name).write_arguments dir.arguments)
    simp only [Minifier.write_directives, directives_frags]
    rw [ih, write_arguments_emits]
    simp [emit_all_append, emit_all, emit]

theorem write_type_condition_emits (tc : TypeCondition) (m : Minifier) :
    m.write_type_condition tc = emit_all m (type_condition_frags tc) := by
  cases tc
  simp [Minifier.write_type_condition, type_condition_frags, emit_all, emit]

theorem write_variable_definition_list_emits : ∀ (l : List VariableDefinition) (m : Minifier),
    m.write_variable_definition_list l = emit_all m (variable_definition_list_frags l)
  | [], m => by
    simp [Minifier.write_variable_definition_list, variable_definition_list_frags, emit_all]
  | var :: rest, m => by
    cases hd : var.default_value with
    | some def_val =>
      have ih := write_variable_definition_list_emits rest
        (((((m.write_punctuator "$").write_non_punctuator var.name).write_punctuator
          ":").write_type var.var_type).write_punctuator "=" |>.write_value def_val)
      simp only [Minifier.write_variable_definition_list, variable_definition_list_frags, hd]
      rw [ih, write_value_emits, write_type_emits]
      simp [emit_all_append, emit_all, emit]
    | none =>
      have ih := write_variable_definition_list_emits rest
        ((((m.write_punctuator "$").write_non_punctuator var.name).write_punctuator
          ":").write_type var.var_type)
      simp only [Minifier.write_variable_definition_list, variable_definition_list_frags, hd]
      rw [ih, write_type_emits]
      simp [emit_all_append, emit_all, emit]

theorem write_variable_definitions_emits (vars : List VariableDefinition) (m : Minifier) :
    m.write_variable_definitions vars = emit_all m (variable_definitions_frags vars) := by
  unfold Minifier.write_variable_definitions variable_definitions_frags
  cases h : vars.isEmpty
  · simp only [Bool.false_eq_true, if_false]
    rw [write_variable_definition_list_emits vars (m.write_punctuator "(")]
    simp [emit_all_append, emit_all, emit]
  · simp [emit_all]

mutual

theorem write_selection_emits : ∀ (sel : Selection) (m : Minifier),
    m.write_selection sel = emit_all m (selection_frags sel)
  | Selection.field fieldAlias name arguments directives selection_set, m => by
    cases fieldAlias with
    | none =>
      cases hss : selection_set.isEmpty with
      | true =>
        simp only [Minifier.write_selection, selection_frags, hss]
        rw [write_directives_emits, write_arguments_emits]
        simp [emit_all_append, emit_all, emit]
      | false =>
        have ihsels := write_selections_emits selection_set
          ((((m.write_non_punctuator name).write_arguments arguments).write_directives
            directives).write_punctuator "\x7b")
        simp only [Minifier.write_selection, selection_frags, hss,
          Minifier.write_selection_set]
        rw [ihsels, write_directives_emits, write_arguments_emits]
        simp [selection_set_frags, emit_all_append, emit_all, emit]
    | some a =>
      cases hss : selection_set.isEmpty with
      | true =>
        simp only [Minifier.write_selection, selection_frags, hss]
        rw [write_directives_emits, write_arguments_emits]
        simp [emit_all_append, emit_all, emit]
      | false =>
        have ihsels := write_selections_emits selection_set
          (((((((m.write_non_punctuator a).write_punctuator
            ":").write_non_punctuator name).write_arguments arguments).write_directives
            directives).write_punctuator "\x7b"))
        simp only [Minifier.write_selection, selection_frags, hss,
          Minifier.write_selection_set]
        rw [ihsels, write_directives_emits, write_arguments_emits]
        simp [selection_set_frags, emit_all_append, emit_all, emit]
  | Selection.fragmentSpread fragment_name directives, m => by
    simp only [Minifier.write_selection, selection_frags]
    rw [write_directives_emits]
    simp [emit_all_append, emit_all, emit]
  | Selection.inlineFragment type_condition directives selection_set, m => by
    cases type_condition with
    | none =>
      have ihsels := write_selections_emits selection_set
        (((m.write_punctuator "...").write_directives directives).write_punctuator "\x7b")
      simp only [Minifier.write_selection, Minifier.write_selection_set, selection_frags]
      rw [ihsels, write_directives_emits]
      simp [selection_set_frags, emit_all_append, emit_all, emit]
    | some tc =>
      have ihsels := write_selections_emits selection_set
        ((((m.write_punctuator "...").write_type_condition tc).write_directives
          directives).write_punctuator "\x7b")
      simp only [Minifier.write_selection, Minifier.write_selection_set, selection_frags]
      rw [ihsels, write_directives_emits, write_type_condition_emits]
      simp [selection_set_frags, emit_all_append, emit_all, emit]

theorem write_selections_emits : ∀ (items : List Selection) (m : Minifier),
    m.write_selections items = emit_all m (selections_frags items)
  | [], m => by simp [Minifier.write_selections, selections_frags, emit_all]
  | item :: rest, m => by
    have ih1 := write_selection_emits item m
    have ih2 := write_selections_emits rest (m.write_selection item)
    simp only [Minifier.write_selections, selections_frags]
    rw [ih2, ih1, emit_all_append]

end

theorem write_selection_set_emits (items : List Selection) (m : Minifier) :
    m.write_selection_set items = emit_all m (selection_set_frags items) := by
  simp only [Minifier.write_selection_set, selection_set_frags]
  rw [write_selections_emits items (m.write_punctuator "\x7b")]
  simp [emit_all_append, emit_all, emit]

theorem write_op_body_emits (keyword : String) (b : OpBody) (m : Minifier) :
    m.write_op_body keyword b = emit_all m (op_body_frags keyword b) := by
  cases hn : b.name with
  | none =>
    simp only [Minifier.write_op_body, op_body_frags, hn]
    rw [write_selection_set_emits, write_directives_emits, write_variable_definitions_emits]
    simp [emit_all_append, emit_all, emit]
  | some name =>
    simp only [Minifier.write_op_body, op_body_frags, hn]
    rw [write_selection_set_emits, write_directives_emits, write_variable_definitions_emits]
    simp [emit_all_append, emit_all, emit]

theorem write_operation_emits (op : OperationDefinition) (m : Minifier) :
    m.write_operation op = emit_all m (operation_frags op) := by
  cases op with
  | selectionSet set =>
    simp only [Minifier.write_operation, operation_frags]
    exact write_selection_set_emits set m
  | query q =>
    simp only [Minifier.write_operation, operation_frags]
    exact write_op_body_emits "query" q m
  | mutation mu =>
    simp only [Minifier.write_operation, operation_frags]
    exact write_op_body_emits "mutation" mu m
  | subscription s =>
    simp only [Minifier.write_operation, operation_frags]
    exact write_op_body_emits "subscription" s m

theorem write_fragment_emits (name : String) (tc : TypeCondition)
    (directives : List Directive) (selection_set : List Selection) (m : Minifier) :
    m.write_fragment name tc directives selection_set =
      emit_all m (fragment_frags name tc directives selection_set) := by
  simp only [Minifier.write_fragment, fragment_frags]
  rw [write_selection_set_emits, write_directives_emits, write_type_condition_emits]
  simp [emit_all_append, emit_all, emit]

theorem write_definition_emits (d : Definition) (m : Minifier) :
    m.write_definition d = emit_all m (definition_frags d) := by
  cases d with
  | operation op =>
    simp only [Minifier.write_definition, definition_frags]
    exact write_operation_emits op m
  | fragment name tc directives selection_set =>
    simp only [Minifier.write_definition, definition_frags]
    exact write_fragment_emits name tc directives selection_set m

theorem write_definitions_emits : ∀ (l : List Definition) (m : Minifier),
    m.write_definitions l = emit_all m (definitions_frags l)
  | [], m => by simp [Minifier.write_definitions, definitions_frags, emit_all]
  | d :: rest, m => by
    have ih := write_definitions_emits rest (m.write_definition d)
    simp only [Minifier.write_definitions, definitions_frags]
    rw [ih, write_definition_emits, emit_all_append]

theorem write_document_emits (doc : Document) (m : Minifier) :
    m.write_document doc = emit_all m (document_frags doc) := by
  simp only [Minifier.write_document, document_frags]
  exact write_definitions_emits doc.definitions m

theorem minify_document_render (doc : Document) :
    minify_document doc = render_from false (document_frags doc) := by
  unfold minify_document
  rw [write_document_emits, emit_all_spec]
  simp [Minifier.new, String.empty_append]

theorem minify_query_loop_render : ∀ (ts : List Token) (b : Bool),
    join_all (minify_query_loop b ts) = render_from b (ts.map token_frag)
  | [], b => by simp [minify_query_loop, join_all, render_from]
  | t :: ts, b => by
    have ih := minify_query_loop_render ts (decide (t.kind ≠ Kind.punctuator))
    by_cases ht : t.kind = Kind.punctuator <;> cases b <;>
      simp [ht] at ih <;>
      simp [minify_query_loop, join_all, render_from, token_frag, ht, ih,
        String.append_assoc]

theorem minify_query_loop_spaced : ∀ (ts : List Token) (prev : Option Token),
    join_all (minify_query_loop
      (match prev with
       | some p => decide (p.kind ≠ Kind.punctuator)
       | none => false) ts) = spaced_concat prev ts
  | [], prev => by cases prev <;> simp [minify_query_loop, join_all, spaced_concat]
  | t :: ts, prev => by
    have ih : join_all (minify_query_loop (decide (t.kind ≠ Kind.punctuator)) ts) =
        spaced_concat (some t) ts := minify_query_loop_spaced ts (some t)
    cases prev with
    | none =>
      by_cases ht : t.kind = Kind.punctuator <;>
        simp [ht] at ih <;>
        simp [minify_query_loop, spaced_concat, join_all, ht, ih,
          String.append_assoc]
    | some p =>
      by_cases hp : p.kind = Kind.punctuator <;>
        by_cases ht : t.kind = Kind.punctuator <;>
          simp [ht] at ih <;>
          simp [minify_query_loop, spaced_concat, join_all, hp, ht, ih,
            String.append_assoc]

/-- C3: for every source text that tokenizes without error, minify_query
returns the concatenation of the exact token texts verbatim, with a single
ASCII space inserted before a token exactly when both the previous and the
current token are non-punctuator tokens, and no space before the first
token. -/
theorem c3_minify_query_token_concat (stream : TokenStream)
    (h : stream.terminal = none) :
    minify_query stream = Except.ok (spaced_concat none stream.tokens) := by
  unfold minify_query
  rw [h]
  exact congrArg Except.ok (minify_query_loop_spaced stream.tokens none)

/-- Witness for C3: the theorem applied to a concrete healthy stream. -/
theorem c3_minify_query_token_concat_witness :
    minify_query witness_stream = Except.ok (spaced_concat none witness_stream.tokens)
    ∧ spaced_concat none witness_stream.tokens = "query Foo\x7bnode\x7d" :=
  ⟨c3_minify_query_token_concat witness_stream rfl, by decide⟩

/-- C4: the adjacency invariant of both pipelines.  The emit-word primitive
prepends a space exactly when the previous fragment was word-like and marks
the state word-like; the emit-punct primitive appends verbatim and marks
the state punctuator; both pipelines render their fragment lists through
render_from, in which any two adjacent fragments are separated by exactly
one space when both are word-like and by nothing when either is a
punctuator. -/
theorem c4_adjacency_invariant :
    (∀ (m : Minifier) (s : String),
      m.write_non_punctuator s =
        ⟨m.buf ++ ((if m.last_was_non_punctuator then " " else "") ++ s), true⟩)
    ∧ (∀ (m : Minifier) (s : String),
      m.write_punctuator s = ⟨m.buf ++ s, false⟩)
    ∧ (∀ doc : Document, minify_document doc = render_from false (document_frags doc))
    ∧ (∀ stream : TokenStream, stream.terminal = none →
      minify_query stream = Except.ok (render_from false (stream.tokens.map token_frag)))
    ∧ (∀ (b : Bool) (fs1 : List Frag) (f g : Frag) (fs2 : List Frag),
      render_from b (fs1 ++ f :: g :: fs2) =
        render_from b (fs1 ++ [f]) ++
          ((if f.isWord && g.isWord then " " else "") ++
           (g.text ++ render_from g.isWord fs2))) := by
  refine ⟨write_non_punctuator_eq, fun m s => rfl, minify_document_render, ?_, ?_⟩
  · intro stream h
    unfold minify_query
    rw [h]
    exact congrArg Except.ok (minify_query_loop_render stream.tokens false)
  · intro b fs1 f g fs2
    rw [render_from_append fs1 (f :: g :: fs2) b, render_from_append fs1 [f] b]
    simp [render_from, last_flag_cons, last_flag_nil, String.append_assoc,
      String.append_empty]

/-- Witness for C4: the token-pipeline conjunct applied to a concrete
healthy stream. -/
theorem c4_adjacency_invariant_witness :
    minify_query witness_stream =
      Except.ok (render_from false (witness_stream.tokens.map token_frag))
    ∧ render_from false (witness_stream.tokens.map token_frag) = "query Foo\x7bnode\x7d" :=
  ⟨c4_adjacency_invariant.2.2.2.1 witness_stream rfl, by decide⟩

/-- C8: a Field with an empty nested selection set emits no selection set at
all (first conjunct: the writer output is exactly the alias, name,
arguments and directives, with no braces), a Field with at least one item
emits it (second conjunct), an InlineFragment always writes its selection
set (third conjunct), and writing a selection set always emits both braces
even when it has no items (fourth conjunct). -/
theorem c8_selection_set_emission :
    (∀ (m : Minifier) (fieldAlias : Option String) (name : String)
        (arguments : List (String × Value)) (directives : List Directive),
      m.write_selection (Selection.field fieldAlias name arguments directives []) =
        (((match fieldAlias with
           | some a => (m.write_non_punctuator a).write_punctuator ":"
           | none => m).write_non_punctuator name).write_arguments
          arguments).write_directives directives)
    ∧ (∀ (m : Minifier) (fieldAlias : Option String) (name : String)
        (arguments : List (String × Value)) (directives : List Directive)
        (s : Selection) (ss : List Selection),
      m.write_selection (Selection.field fieldAlias name arguments directives (s :: ss)) =
        ((((match fieldAlias with
            | some a => (m.write_non_punctuator a).write_punctuator ":"
            | none => m).write_non_punctuator name).write_arguments
           arguments).write_directives directives).write_selection_set (s :: ss))
    ∧ (∀ (m : Minifier) (type_condition : Option TypeCondition)
        (directives : List Directive) (selection_set : List Selection),
      m.write_selection (Selection.inlineFragment type_condition directives selection_set) =
        ((match type_condition with
          | some tc => (m.write_punctuator "...").write_type_condition tc
          | none => m.write_punctuator "...").write_directives
          directives).write_selection_set selection_set)
    ∧ (∀ m : Minifier, (m.write_selection_set []).buf = m.buf ++ "\x7b\x7d") := by
  refine ⟨?_, ?_, ?_, ?_⟩
  · intro m fieldAlias name arguments directives
    cases fieldAlias <;> simp [Minifier.write_selection]
  · intro m fieldAlias name arguments directives s ss
    cases fieldAlias <;> simp [Minifier.write_selection]
  · intro m type_condition directives selection_set
    cases type_condition <;> simp [Minifier.write_selection]
  · intro m
    simp [Minifier.write_selection_set, Minifier.write_selections,
      Minifier.write_punctuator, String.append_assoc]

theorem definition_frags_head (d : Definition) :
    ∃ f fs, definition_frags d = f :: fs ∧
      f.text ∈ (["\x7b", "query", "mutation", "subscription", "fragment"] : List String) := by
  cases d with
  | operation op =>
    cases op with
    | selectionSet set =>
      refine ⟨⟨false, "\x7b"⟩,
        selections_frags set ++ [⟨false, "\x7d"⟩], ?_, by decide⟩
      simp [definition_frags, operation_frags, selection_set_frags]
    | query q =>
      refine ⟨⟨true, "query"⟩,
        (match q.name with
         | some name => [(⟨true, name⟩ : Frag)]
         | none => []) ++
          (variable_definitions_frags q.variable_definitions ++
           (directives_frags q.directives ++ selection_set_frags q.selection_set)),
        ?_, by decide⟩
      simp [definition_frags, operation_frags, op_body_frags]
    | mutation mu =>
      refine ⟨⟨true, "mutation"⟩,
        (match mu.name with
         | some name => [(⟨true, name⟩ : Frag)]
         | none => []) ++
          (variable_definitions_frags mu.variable_definitions ++
           (directives_frags mu.directives ++ selection_set_frags mu.selection_set)),
        ?_, by decide⟩
      simp [definition_frags, operation_frags, op_body_frags]
    | subscription s =>
      refine ⟨⟨true, "subscription"⟩,
        (match s.name with
         | some name => [(⟨true, name⟩ : Frag)]
         | none => []) ++
          (variable_definitions_frags s.variable_definitions ++
           (directives_frags s.directives ++ selection_set_frags s.selection_set)),
        ?_, by decide⟩
      simp [definition_frags, operation_frags, op_body_frags]
  | fragment name tc directives selection_set =>
    refine ⟨⟨true, "fragment"⟩,
      ⟨true, name⟩ ::
        (type_condition_frags tc ++
         (directives_frags directives ++ selection_set_frags selection_set)),
      ?_, by decide⟩
    simp [definition_frags, fragment_frags]

/-- C10: the minifier starts with the word-like flag false; a document with
no definitions minifies to the empty string; and no minified document ever
begins with an ASCII space. -/
theorem c10_initial_state :
    Minifier.new.last_was_non_punctuator = false
    ∧ (∀ doc : Document, doc.definitions = [] → minify_document doc = "")
    ∧ (∀ doc : Document, (minify_document doc).data.head? ≠ some ' ') := by
  refine ⟨rfl, ?_, ?_⟩
  · intro doc h
    rw [minify_document_render]
    simp [document_frags, definitions_frags, h, render_from]
  · intro doc
    rw [minify_document_render]
    unfold document_frags
    cases h : doc.definitions with
    | nil => simp [definitions_frags, render_from]
    | cons d ds =>
      obtain ⟨f, fs, hfs, hmem⟩ := definition_frags_head d
      have hdf : definitions_frags (d :: ds) = f :: (fs ++ definitions_frags ds) := by
        simp [definitions_frags, hfs]
      rw [hdf]
      have hrf : render_from false (f :: (fs ++ definitions_frags ds)) =
          f.text ++ render_from f.isWord (fs ++ definitions_frags ds) := by
        simp [render_from, String.empty_append]
      rw [hrf, String.data_append, List.head?_append]
      simp only [List.mem_cons, List.not_mem_nil, or_false] at hmem
      rcases hmem with h1 | h1 | h1 | h1 | h1 <;> rw [h1] <;>
        simp [Option.or,
          show ("\x7b" : String).data.head? = some '\x7b' from rfl,
          show ("query" : String).data.head? = some 'q' from rfl,
          show ("mutation" : String).data.head? = some 'm' from rfl,
          show ("subscription" : String).data.head? = some 's' from rfl,
          show ("fragment" : String).data.head? = some 'f' from rfl]

theorem hex_digit_mem (k : Nat) (h : k < 16) :
    hex_digit k ∈ ("0123456789abcdef" : String).data := by
  interval_cases k <;> decide

theorem hex_val_hex_digit (k : Nat) (h : k < 16) : hex_val (hex_digit k) = some k := by
  interval_cases k <;> decide

theorem hex4_val_to_hex4 (n : Nat) (h : n < 65536) : hex4_val (to_hex4 n) = some n := by
  have h1 : n / 4096 % 16 < 16 := Nat.mod_lt _ (by norm_num)
  have h2 : n / 256 % 16 < 16 := Nat.mod_lt _ (by norm_num)
  have h3 : n / 16 % 16 < 16 := Nat.mod_lt _ (by norm_num)
  have h4 : n % 16 < 16 := Nat.mod_lt _ (by norm_num)
  simp only [hex4_val, to_hex4]
  rw [hex_val_hex_digit _ h1, hex_val_hex_digit _ h2, hex_val_hex_digit _ h3,
    hex_val_hex_digit _ h4]
  exact congrArg some (by omega)

/-- C2: the String arm of the value writer emits a double-quoted literal
built by re-escaping the decoded string value (first conjunct, with the
space inserted exactly when the previous fragment was word-like and the
word-like flag set afterwards); the escape map sends the seven named
characters to their named escapes, any other control character to a
backslash-u escape of exactly four lowercase hexadecimal digits encoding
its code point, and every other character through unchanged; and a decoded
triple-quote re-emits as three escaped quotes. -/
theorem c2_string_escaping :
    (∀ (m : Minifier) (s : String),
      m.write_value (Value.string s) =
        ⟨(if m.last_was_non_punctuator then m.buf ++ " " else m.buf)
          ++ "\"" ++ escape_string s ++ "\"", true⟩)
    ∧ escape_char '\x08' = "\\b"
    ∧ escape_char '\x0c' = "\\f"
    ∧ escape_char '\r' = "\\r"
    ∧ escape_char '\n' = "\\n"
    ∧ escape_char '\t' = "\\t"
    ∧ escape_char '\"' = "\\\""
    ∧ escape_char '\\' = "\\\\"
    ∧ (∀ c : Char, is_control c = true →
        c ≠ '\x08' → c ≠ '\x0c' → c ≠ '\r' → c ≠ '\n' → c ≠ '\t' →
        escape_char c = "\\u" ++ to_hex4 c.toNat)
    ∧ (∀ c : Char, is_control c = false → c ≠ '\"' → c ≠ '\\' →
        escape_char c = String.singleton c)
    ∧ (∀ n : Nat, n < 65536 →
        (to_hex4 n).length = 4
        ∧ (∀ c ∈ (to_hex4 n).data, c ∈ ("0123456789abcdef" : String).data)
        ∧ hex4_val (to_hex4 n) = some n)
    ∧ escape_string "\"\"\"" = "\\\"\\\"\\\"" := by
  refine ⟨?_, rfl, rfl, rfl, rfl, rfl, rfl, rfl, ?_, ?_, ?_, by decide⟩
  · intro m s
    simp [Minifier.write_value]
  · intro c hc h8 h12 hr hn ht
    have hq : c ≠ '\"' := by rintro rfl; exact absurd hc (by decide)
    have hbs : c ≠ '\\' := by rintro rfl; exact absurd hc (by decide)
    simp [escape_char, h8, h12, hr, hn, ht, hq, hbs, hc]
  · intro c hc hq hbs
    have h8 : c ≠ '\x08' := by rintro rfl; exact absurd hc (by decide)
    have h12 : c ≠ '\x0c' := by rintro rfl; exact absurd hc (by decide)
    have hr : c ≠ '\r' := by rintro rfl; exact absurd hc (by decide)
    have hn : c ≠ '\n' := by rintro rfl; exact absurd hc (by decide)
    have ht : c ≠ '\t' := by rintro rfl; exact absurd hc (by decide)
    simp [escape_char, h8, h12, hr, hn, ht, hq, hbs, hc]
  · intro n hn
    refine ⟨rfl, ?_, hex4_val_to_hex4 n hn⟩
    intro c hcmem
    simp only [to_hex4, List.mem_cons, List.not_mem_nil, or_false] at hcmem
    rcases hcmem with h | h | h | h <;> rw [h] <;>
      exact hex_digit_mem _ (Nat.mod_lt _ (by norm_num))

/-- Witness for C2: the escape map evaluated through the theorem at the
control character 0x01, the ordinary character A, and the code point
159. -/
theorem c2_string_escaping_witness :
    escape_char (Char.ofNat 1) = "\\u" ++ to_hex4 (Char.ofNat 1).toNat
    ∧ escape_char 'A' = String.singleton 'A'
    ∧ hex4_val (to_hex4 159) = some 159 := by
  obtain ⟨-, -, -, -, -, -, -, -, hu, hpass, hhex, -⟩ := c2_string_escaping
  exact ⟨hu (Char.ofNat 1) (by decide) (by decide) (by decide) (by decide)
      (by decide) (by decide),
    hpass 'A' (by decide) (by decide) (by decide),
    (hhex 159 (by decide)).2.2⟩

set_option maxHeartbeats 1000000 in
theorem unescape_verbatim (c : Char) (cs : List Char) (hbs : c ≠ '\\') (hq : c ≠ '\"') :
    unescape_chars (c :: cs) = (unescape_chars cs).map (fun l => c :: l) := by
  rw [unescape_chars.eq_def]
  split <;> simp_all

theorem unescape_escape_chars : ∀ l : List Char,
    unescape_chars ((escape_chars l).data) = some l
  | [] => by simp [escape_chars, unescape_chars]
  | c :: cs => by
    have ih := unescape_escape_chars cs
    simp only [escape_chars, String.data_append]
    by_cases h8 : c = '\x08'
    · subst h8
      rw [show (escape_char '\x08').data = ['\\', 'b'] from rfl]
      simp [unescape_chars, ih]
    · by_cases h12 : c = '\x0c'
      · subst h12
        rw [show (escape_char '\x0c').data = ['\\', 'f'] from rfl]
        simp [unescape_chars, ih]
      · by_cases hr : c = '\r'
        · subst hr
          rw [show (escape_char '\r').data = ['\\', 'r'] from rfl]
          simp [unescape_chars, ih]
        · by_cases hn : c = '\n'
          · subst hn
            rw [show (escape_char '\n').data = ['\\', 'n'] from rfl]
            simp [unescape_chars, ih]
          · by_cases ht : c = '\t'
            · subst ht
              rw [show (escape_char '\t').data = ['\\', 't'] from rfl]
              simp [unescape_chars, ih]
            · by_cases hq : c = '\"'
              · subst hq
                rw [show (escape_char '\"').data = ['\\', '\"'] from rfl]
                simp [unescape_chars, ih]
              · by_cases hbs : c = '\\'
                · subst hbs
                  rw [show (escape_char '\\').data = ['\\', '\\'] from rfl]
                  simp [unescape_chars, ih]
                · by_cases hctl : is_control c
                  · have he : escape_char c = "\\u" ++ to_hex4 c.toNat := by
                      simp [escape_char, h8, h12, hr, hn, ht, hq, hbs, hctl]
                    have hbound : c.toNat < 65536 := by
                      have := hctl
                      simp [is_control] at this
                      omega
                    rw [he, String.data_append,
                      show ("\\u" : String).data = ['\\', 'u'] from rfl,
                      show (to_hex4 c.toNat).data = [hex_digit (c.toNat / 4096 % 16),
                        hex_digit (c.toNat / 256 % 16), hex_digit (c.toNat / 16 % 16),
                        hex_digit (c.toNat % 16)] from rfl]
                    simp only [List.cons_append, List.nil_append, unescape_chars,
                      reduceIte]
                    rw [hex_val_hex_digit _ (Nat.mod_lt _ (by norm_num)),
                      hex_val_hex_digit _ (Nat.mod_lt _ (by norm_num)),
                      hex_val_hex_digit _ (Nat.mod_lt _ (by norm_num)),
                      hex_val_hex_digit _ (Nat.mod_lt _ (by norm_num))]
                    simp only [ih, Option.map_some]
                    rw [show (c.toNat / 4096 % 16) * 4096 + (c.toNat / 256 % 16) * 256 +
                        (c.toNat / 16 % 16) * 16 + c.toNat % 16 = c.toNat from by omega,
                      Char.ofNat_toNat]
                    simp [ih]
                  · have he : escape_char c = String.singleton c := by
                      simp [escape_char, h8, h12, hr, hn, ht, hq, hbs, hctl]
                    rw [he, show (String.singleton c).data = [c] from rfl,
                      List.singleton_append, unescape_verbatim c _ hbs hq, ih]
                    rfl

/-- C6: decoding the escaped literal body emitted by the string serializer
yields exactly the original decoded string value, for every string
value. -/
theorem c6_escape_round_trip (s : String) :
    unescape_string (escape_string s) = some s := by
  unfold unescape_string escape_string
  rw [unescape_escape_chars s.data]
  rfl

theorem escape_chars_opt_eq : ∀ (l : List Char) (buf : String),
    escape_chars_opt buf l = some (buf ++ escape_chars l)
  | [], buf => by simp [escape_chars_opt, escape_chars, String.append_empty]
  | c :: cs, buf => by
    have ih := fun b => escape_chars_opt_eq cs b
    simp only [escape_chars_opt, escape_chars, escape_char, fmt_write]
    split_ifs <;> simp [ih, String.append_assoc, Option.bind]

mutual

theorem write_value_opt_eq : ∀ (v : Value) (m : Minifier),
    m.write_value_opt v = some (m.write_value v)
  | Value.var name, m => by simp [Minifier.write_value_opt, Minifier.write_value]
  | Value.int n, m => by simp [Minifier.write_value_opt, Minifier.write_value]
  | Value.float text, m => by simp [Minifier.write_value_opt, Minifier.write_value]
  | Value.string s, m => by
    simp only [Minifier.write_value_opt, Minifier.write_value]
    rw [escape_chars_opt_eq s.data]
    simp [escape_string, String.append_assoc]
  | Value.boolean b, m => by simp [Minifier.write_value_opt, Minifier.write_value]
  | Value.null, m => by simp [Minifier.write_value_opt, Minifier.write_value]
  | Value.enum name, m => by simp [Minifier.write_value_opt, Minifier.write_value]
  | Value.list items, m => by
    have ih := write_value_list_opt_eq items (m.write_punctuator "[")
    simp [Minifier.write_value_opt, Minifier.write_value, ih]
  | Value.object fields, m => by
    have ih := write_object_fields_opt_eq fields (m.write_punctuator "\x7b")
    simp [Minifier.write_value_opt, Minifier.write_value, ih]

theorem write_value_list_opt_eq : ∀ (l : List Value) (m : Minifier),
    m.write_value_list_opt l = some (m.write_value_list l)
  | [], m => by simp [Minifier.write_value_list_opt, Minifier.write_value_list]
  | v :: rest, m => by
    have ih1 := write_value_opt_eq v m
    have ih2 := write_value_list_opt_eq rest (m.write_value v)
    simp [Minifier.write_value_list_opt, Minifier.write_value_list, ih1, ih2]

theorem write_object_fields_opt_eq : ∀ (l : List (String × Value)) (m : Minifier),
    m.write_object_fields_opt l = some (m.write_object_fields l)
  | [], m => by simp [Minifier.write_object_fields_opt, Minifier.write_object_fields]
  | (name, val) :: rest, m => by
    have ih1 := write_value_opt_eq val ((m.write_non_punctuator name).write_punctuator ":")
    have ih2 := write_object_fields_opt_eq rest
      (((m.write_non_punctuator name).write_punctuator ":").write_value val)
    simp [Minifier.write_object_fields_opt, Minifier.write_object_fields, ih1, ih2]

end

theorem write_argument_pairs_opt_eq : ∀ (l : List (String × Value)) (m : Minifier),
    m.write_argument_pairs_opt l = some (m.write_argument_pairs l)
  | [], m => by simp [Minifier.write_argument_pairs_opt, Minifier.write_argument_pairs]
  | (name, val) :: rest, m => by
    have ih := write_argument_pairs_opt_eq rest
      (((m.write_non_punctuator name).write_punctuator ":").write_value val)
    simp [Minifier.write_argument_pairs_opt, Minifier.write_argument_pairs,
      write_value_opt_eq, ih]

theorem write_arguments_opt_eq (args : List (String × Value)) (m : Minifier) :
    m.write_arguments_opt args = some (m.write_arguments args) := by
  unfold Minifier.write_arguments_opt Minifier.write_arguments
  cases h : args.isEmpty <;>
    simp [write_argument_pairs_opt_eq args (m.write_punctuator "(")]

theorem write_directives_opt_eq : ∀ (l : List Directive) (m : Minifier),
    m.write_directives_opt l = some (m.write_directives l)
  | [], m => by simp [Minifier.write_directives_opt, Minifier.write_directives]
  | dir :: rest, m => by
    have ih := write_directives_opt_eq rest
      (((m.write_punctuator "@").write_non_punctuator dir.name).write_arguments dir.arguments)
    simp [Minifier.write_directives_opt, Minifier.write_directives,
      write_arguments_opt_eq, ih]

theorem write_variable_definition_list_opt_eq :
    ∀ (l : List VariableDefinition) (m : Minifier),
    m.write_variable_definition_list_opt l = some (m.write_variable_definition_list l)
  | [], m => by
    simp [Minifier.write_variable_definition_list_opt,
      Minifier.write_variable_definition_list]
  | var :: rest, m => by
    cases hd : var.default_value with
    | some def_val =>
      have ih := write_variable_definition_list_opt_eq rest
        ((((((m.write_punctuator "$").write_non_punctuator var.name).write_punctuator
          ":").write_type var.var_type).write_punctuator "=").write_value def_val)
      simp [Minifier.write_variable_definition_list_opt,
        Minifier.write_variable_definition_list, hd, write_value_opt_eq, ih]
    | none =>
      have ih := write_variable_definition_list_opt_eq rest
        ((((m.write_punctuator "$").write_non_punctuator var.name).write_punctuator
          ":").write_type var.var_type)
      simp [Minifier.write_variable_definition_list_opt,
        Minifier.write_variable_definition_list, hd, ih]

theorem write_variable_definitions_opt_eq (vars : List VariableDefinition) (m : Minifier) :
    m.write_variable_definitions_opt vars = some (m.write_variable_definitions vars) := by
  unfold Minifier.write_variable_definitions_opt Minifier.write_variable_definitions
  cases h : vars.isEmpty <;>
    simp [write_variable_definition_list_opt_eq vars (m.write_punctuator "(")]

mutual

theorem write_selection_opt_eq : ∀ (sel : Selection) (m : Minifier),
    m.write_selection_opt sel = some (m.write_selection sel)
  | Selection.field fieldAlias name arguments directives selection_set, m => by
    cases fieldAlias with
    | none =>
      cases hss : selection_set.isEmpty with
      | true =>
        simp [Minifier.write_selection_opt, Minifier.write_selection, hss,
          write_arguments_opt_eq, write_directives_opt_eq]
      | false =>
        have ih := write_selections_opt_eq selection_set
          ((((m.write_non_punctuator name).write_arguments arguments).write_directives
            directives).write_punctuator "\x7b")
        simp [Minifier.write_selection_opt, Minifier.write_selection, hss,
          Minifier.write_selection_set_opt, Minifier.write_selection_set,
          write_arguments_opt_eq, write_directives_opt_eq, ih]
    | some a =>
      cases hss : selection_set.isEmpty with
      | true =>
        simp [Minifier.write_selection_opt, Minifier.write_selection, hss,
          write_arguments_opt_eq, write_directives_opt_eq]
      | false =>
        have ih := write_selections_opt_eq selection_set
          ((((((m.write_non_punctuator a).write_punctuator ":").write_non_punctuator
            name).write_arguments arguments).write_directives
            directives).write_punctuator "\x7b")
        simp [Minifier.write_selection_opt, Minifier.write_selection, hss,
          Minifier.write_selection_set_opt, Minifier.write_selection_set,
          write_arguments_opt_eq, write_directives_opt_eq, ih]
  | Selection.fragmentSpread fragment_name directives, m => by
    simp [Minifier.write_selection_opt, Minifier.write_selection,
      write_directives_opt_eq]
  | Selection.inlineFragment type_condition directives selection_set, m => by
    cases type_condition with
    | none =>
      have ih := write_selections_opt_eq selection_set
        (((m.write_punctuator "...").write_directives directives).write_punctuator "\x7b")
      simp [Minifier.write_selection_opt, Minifier.write_selection,
        Minifier.write_selection_set_opt, Minifier.write_selection_set,
        write_directives_opt_eq, ih]
    | some tc =>
      have ih := write_selections_opt_eq selection_set
        ((((m.write_punctuator "...").write_type_condition tc).write_directives
          directives).write_punctuator "\x7b")
      simp [Minifier.write_selection_opt, Minifier.write_selection,
        Minifier.write_selection_set_opt, Minifier.write_selection_set,
        write_directives_opt_eq, ih]

theorem write_selections_opt_eq : ∀ (items : List Selection) (m : Minifier),
    m.write_selections_opt items = some (m.write_selections items)
  | [], m => by simp [Minifier.write_selections_opt, Minifier.write_selections]
  | item :: rest, m => by
    have ih1 := write_selection_opt_eq item m
    have ih2 := write_selections_opt_eq rest (m.write_selection item)
    simp [Minifier.write_selections_opt, Minifier.write_selections, ih1, ih2]

end

theorem write_selection_set_opt_eq (items : List Selection) (m : Minifier) :
    m.write_selection_set_opt items = some (m.write_selection_set items) := by
  simp [Minifier.write_selection_set_opt, Minifier.write_selection_set,
    write_selections_opt_eq items (m.write_punctuator "\x7b")]

theorem write_op_body_opt_eq (keyword : String) (b : OpBody) (m : Minifier) :
    m.write_op_body_opt keyword b = some (m.write_op_body keyword b) := by
  cases hn : b.name with
  | none =>
    simp [Minifier.write_op_body_opt, Minifier.write_op_body, hn,
      write_variable_definitions_opt_eq, write_directives_opt_eq,
      write_selection_set_opt_eq]
  | some name =>
    simp [Minifier.write_op_body_opt, Minifier.write_op_body, hn,
      write_variable_definitions_opt_eq, write_directives_opt_eq,
      write_selection_set_opt_eq]

theorem write_operation_opt_eq (op : OperationDefinition) (m : Minifier) :
    m.write_operation_opt op = some (m.write_operation op) := by
  cases op <;>
    simp [Minifier.write_operation_opt, Minifier.write_operation,
      write_selection_set_opt_eq, write_op_body_opt_eq]

theorem write_fragment_opt_eq (name : String) (tc : TypeCondition)
    (directives : List Directive) (selection_set : List Selection) (m : Minifier) :
    m.write_fragment_opt name tc directives selection_set =
      some (m.write_fragment name tc directives selection_set) := by
  simp [Minifier.write_fragment_opt, Minifier.write_fragment,
    write_directives_opt_eq, write_selection_set_opt_eq]

theorem write_definition_opt_eq (d : Definition) (m : Minifier) :
    m.write_definition_opt d = some (m.write_definition d) := by
  cases d <;>
    simp [Minifier.write_definition_opt, Minifier.write_definition,
      write_operation_opt_eq, write_fragment_opt_eq]

theorem write_definitions_opt_eq : ∀ (l : List Definition) (m : Minifier),
    m.write_definitions_opt l = some (m.write_definitions l)
  | [], m => by simp [Minifier.write_definitions_opt, Minifier.write_definitions]
  | d :: rest, m => by
    have ih := write_definitions_opt_eq rest (m.write_definition d)
    simp [Minifier.write_definitions_opt, Minifier.write_definitions,
      write_definition_opt_eq, ih]

/-- C5: minify_document is total — the pipeline in which the backslash-u
formatting step is kept fallible always succeeds and returns exactly the
string the total tree minifier returns, and the fallible escape loop itself
can never fail. -/
theorem c5_minify_document_total :
    (∀ doc : Document, minify_document_opt doc = some (minify_document doc))
    ∧ (∀ (buf : String) (l : List Char), escape_chars_opt buf l ≠ none) := by
  constructor
  · intro doc
    simp [minify_document_opt, minify_document, Minifier.write_document_opt,
      Minifier.write_document, write_definitions_opt_eq]
  · intro buf l
    rw [escape_chars_opt_eq]
    exact Option.noConfusion

/-- Witness for C10: the theorem applied to the empty document. -/
theorem c10_initial_state_witness :
    minify_document ⟨[]⟩ = ""
    ∧ (minify_document ⟨[]⟩).data.head? ≠ some ' ' :=
  ⟨c10_initial_state.2.1 ⟨[]⟩ rfl, c10_initial_state.2.2 ⟨[]⟩⟩

/-- C1: evaluation of both pipelines at the block-string source whose
fourteen characters are brace a ( b : tripleQuote x tripleQuote ) brace.
The token texts concatenate back to that source; the token pipeline
returns the source verbatim, keeping the triple-quoted block-string form;
the tree pipeline re-escapes the decoded value into a standard
double-quoted literal; and the two outputs differ, so the two pipelines
disagree on a syntactically valid source containing a block string. -/
theorem c1_block_string_divergence :
    join_all (block_string_tokens.map Token.value) = "\x7ba(b:\"\"\"x\"\"\")\x7d"
    ∧ minify_query ⟨block_string_tokens, none⟩ = Except.ok "\x7ba(b:\"\"\"x\"\"\")\x7d"
    ∧ minify_document block_string_document = "\x7ba(b:\"x\")\x7d"
    ∧ ("\x7ba(b:\"\"\"x\"\"\")\x7d" : String) ≠ "\x7ba(b:\"x\")\x7d" := by
  refine ⟨rfl, rfl, ?_, by decide⟩
  simp only [minify_document, block_string_document, Minifier.write_document,
    Minifier.write_definitions, Minifier.write_definition, Minifier.write_operation,
    Minifier.write_selection_set, Minifier.write_selections, Minifier.write_selection,
    Minifier.write_arguments, Minifier.write_argument_pairs, Minifier.write_value,
    Minifier.write_directives, Minifier.write_non_punctuator, Minifier.write_punctuator,
    Minifier.new]
  decide

/-- C9: minify_query fails exactly when the token stream ends in a lexical
error — an error stream yields an error wrapping the description and no
output string, a clean stream yields an ok result — the error displays as
query minify error: message, and the stray-semicolon stream of the source
test yields the error whose message names the unexpected character. -/
theorem c9_minify_error :
    (∀ (stream : TokenStream) (msg : String), stream.terminal = some msg →
      minify_query stream = Except.error (MinifyError.mk msg))
    ∧ (∀ stream : TokenStream, stream.terminal = none →
      ∃ s, minify_query stream = Except.ok s)
    ∧ (∀ msg : String, (MinifyError.mk msg).display = "query minify error: " ++ msg)
    ∧ minify_query semicolon_stream =
        Except.error (MinifyError.mk "Unexpected unexpected character ';'")
    ∧ (MinifyError.mk "Unexpected unexpected character ';'").display =
        "query minify error: Unexpected unexpected character ';'" := by
  refine ⟨?_, ?_, fun msg => rfl, rfl, by decide⟩
  · intro stream msg h
    simp [minify_query, h]
  · intro stream h
    exact ⟨join_all (minify_query_loop false stream.tokens), by simp [minify_query, h]⟩

/-- Witness for C9: the theorem applied to a concrete erroring stream and a
concrete healthy stream. -/
theorem c9_minify_error_witness :
    minify_query ⟨[], some "boom"⟩ = Except.error (MinifyError.mk "boom")
    ∧ (∃ s, minify_query witness_stream = Except.ok s) :=
  ⟨c9_minify_error.1 ⟨[], some "boom"⟩ "boom" rfl,
   c9_minify_error.2.1 witness_stream rfl⟩

end GraphQL
